import Mathlib

/-!
Verification development for the cascading metadata resolution engine of
`metaparser.py` (repository `metafiles`).  The Python source is shallowly
embedded: lxml elements become the inductive `Element` (tag, attribute
association list, text, children; an element with no text is modelled with
text `""`), Python dicts preserving insertion order become association
lists with unique keys, in-place mutation of the shared `meta_path` /
`collector` / `link_collector` lists becomes explicit state threading
through `WalkState`, and the `raise ValueError` path becomes `Except`.
Recursive walks over the element tree are written with an explicit fuel
argument (structural recursion, so every definition evaluates inside the
kernel); callers pass `sizeOf` of the tree, which strictly bounds the
recursion depth, so the out-of-fuel branches are unreachable.
-/

namespace Metafiles

/-- An lxml element as the resolver reads it: tag (in Clark notation for
namespaced tags), ordered attribute list, text content (`""` when the
element has no text) and child elements. -/
inductive Element where
  | mk (tag : String) (attribs : List (String × String)) (text : String)
       (children : List Element)

def Element.tag : Element → String
  | .mk t _ _ _ => t

def Element.attribs : Element → List (String × String)
  | .mk _ a _ _ => a

def Element.text : Element → String
  | .mk _ _ t _ => t

def Element.children : Element → List Element
  | .mk _ _ _ c => c

mutual

/-- Number of nodes of an element tree; a strict bound on its depth, used
as fuel for the recursive walks. -/
def elemSize : Element → Nat
  | .mk _ _ _ children => 1 + elemListSize children

def elemListSize : List Element → Nat
  | [] => 0
  | e :: es => elemSize e + elemListSize es

end

/-- Association-list lookup (first entry wins), modelling Python dict /
lxml attribute lookup. -/
def lookupA (l : List (String × String)) (k : String) : Option String :=
  (l.find? (fun kv => kv.1 == k)).map (fun kv => kv.2)

/-- `element.get(name)` / `name in element.attrib` of lxml. -/
def getAttr (e : Element) (name : String) : Option String :=
  lookupA e.attribs name

/-- `element.get(name, default)` of lxml. -/
def getAttrD (e : Element) (name default_ : String) : String :=
  (getAttr e name).getD default_

/-- `element.xpath("ns:tag")` followed by taking the first hit: the first
child with the given tag. -/
def findChild (e : Element) (tag : String) : Option Element :=
  e.children.find? (fun c => c.tag == tag)

/-- The `ns` table of metaparser.py: the document namespace. -/
def nsURI : String := "http://ki.ujep.cz/metafiles"

/-- Clark notation for a tag in the document namespace, as produced by the
f-strings of the source (for example the dispatch on dir / files / set /
add tags). -/
def nsTag (localName : String) : String :=
  "\x7b" ++ nsURI ++ "\x7d" ++ localName

/-- The `uri_ns` table of metaparser.py. -/
def uri_ns : List (String × String) :=
  [("http://purl.org/dc/elements/1.1/", "dc"),
   ("http://purl.org/dc/terms/", "dcterms"),
   ("http://spdx.org/rdf/terms#", "spdx"),
   ("http://www.w3.org/ns/dcat#", "dcat")]

/-- `clark_to_qname` of metaparser.py: rewrite a Clark-notation tag
`\x7buri\x7dlocal` to `prefix:local` using the mapping; a tag with no
namespace, or with an unknown namespace URI, is returned unchanged. -/
def clark_to_qname (tag : String) (mapping : List (String × String)) : String :=
  match tag.data with
  | '\x7b' :: rest =>
    let uri : String := ⟨rest.takeWhile (fun c => c ≠ '\x7d')⟩
    match (rest.dropWhile (fun c => c ≠ '\x7d')) with
    | _ :: localChars =>
      let localname : String := ⟨localChars⟩
      match lookupA mapping uri with
      | none => tag
      | some pre => if pre == "" then localname else pre ++ ":" ++ localname
    | [] => tag
  | _ => tag

/-- The metadata mapping `Dict[str, List[str]]`: an insertion-ordered
association list with unique keys. -/
abbrev MetadataMap := List (String × List String)

/-- `key in metadata` on a Python dict. -/
def containsKey (m : MetadataMap) (k : String) : Bool :=
  m.any (fun kv => kv.1 == k)

/-- `metadata[key]` lookup (first entry with the key). -/
def lookupM (m : MetadataMap) (k : String) : Option (List String) :=
  (m.find? (fun kv => kv.1 == k)).map (fun kv => kv.2)

/-- `metadata[key] = vs` on a Python dict: replace in place when the key is
present (keeping its position), otherwise append a new entry at the end. -/
def setEntry (m : MetadataMap) (k : String) (vs : List String) : MetadataMap :=
  if containsKey m k then
    m.map (fun kv => if kv.1 == k then (kv.1, vs) else kv)
  else
    m ++ [(k, vs)]

/-- `metadata[key].append(v)` when the key is present, otherwise
`metadata[key] = [v]` — the body of `append_attribute`'s final if/else. -/
def appendValue (m : MetadataMap) (k : String) (v : String) : MetadataMap :=
  if containsKey m k then
    m.map (fun kv => if kv.1 == k then (kv.1, kv.2 ++ [v]) else kv)
  else
    m ++ [(k, [v])]

/-- `LinkInfo` of metaparser.py. -/
structure LinkInfo where
  type : String
  path : String
  metadata : MetadataMap
deriving DecidableEq

/-- The mutable state of the tree walk: the Python lists `collector`,
`link_collector` and `meta_path`, which the source mutates in place and
shares by aliasing across recursive calls; here they are threaded
explicitly. -/
structure WalkState where
  collector : List MetadataMap
  linkCollector : List LinkInfo
  metaPath : List String
deriving DecidableEq

/-- Python whitespace for `str.strip()` (the ASCII part; the claims only
exercise ASCII data). -/
def isPySpace (c : Char) : Bool :=
  c == ' ' || c == '\t' || c == '\n' || c == '\r' || c == '\x0b' || c == '\x0c'

/-- `str.strip()`. -/
def pyStrip (s : String) : String :=
  ⟨((s.data.dropWhile isPySpace).reverse.dropWhile isPySpace).reverse⟩

/-- Component-wise list-prefix test over characters, used by the split
model below. -/
def isPrefixChars : List Char → List Char → Bool
  | [], _ => true
  | _ :: _, [] => false
  | p :: ps, c :: cs => p == c && isPrefixChars ps cs

/-- Fuel-driven core of Python `str.split(sep)` for a non-empty separator:
cut at every non-overlapping occurrence, keeping empty pieces.  The fuel
bounds the number of consumed characters; callers pass the string length. -/
def splitChars (sep : List Char) : Nat → List Char → List (List Char)
  | _, [] => [[]]
  | 0, s => [s]
  | fuel + 1, c :: rest =>
    if isPrefixChars sep (c :: rest) && !sep.isEmpty then
      [] :: splitChars sep fuel ((c :: rest).drop sep.length)
    else
      match splitChars sep fuel rest with
      | [] => [[c]]
      | g :: gs => (c :: g) :: gs

/-- Python `s.split(sep)`; `sep` is never empty at the call sites of the
source (an empty separator raises ValueError in Python, modelled as the
identity split). -/
def pySplit (s sep : String) : List String :=
  if sep.isEmpty then [s]
  else (splitChars sep.data s.data.length s.data).map (fun l => ⟨l⟩)

/-- Python `sep.join(values)`. -/
def pyJoin (sep : String) : List String → String
  | [] => ""
  | [x] => x
  | x :: xs => x ++ sep ++ pyJoin sep xs

/-- Fuel-driven glob matcher modelling `fnmatch.fnmatch` on POSIX for the
`*` / `?` / literal constructs (character classes are not used by the rule
documents the spec describes).  The fuel bounds the total shrinking of
pattern plus string; `fnmatchb` passes a sufficient amount. -/
def globFuel : Nat → List Char → List Char → Bool
  | 0, _, _ => false
  | fuel + 1, pat, s =>
    match pat, s with
    | [], rest => rest.isEmpty
    | '*' :: ps, [] => globFuel fuel ps []
    | '*' :: ps, c :: cs =>
      globFuel fuel ps (c :: cs) || globFuel fuel ('*' :: ps) cs
    | '?' :: ps, _ :: cs => globFuel fuel ps cs
    | _ :: _, [] => false
    | p :: ps, c :: cs => p == c && globFuel fuel ps cs

/-- `fnmatch.fnmatch(name, pat)` (POSIX: no case folding). -/
def fnmatchb (name pat : String) : Bool :=
  globFuel (pat.length + name.length + 1) pat.data name.data

/-- `transform_dict_values` of metaparser.py: per key, a splitter splits
every value on its delimiter, strips each part, drops empty parts and
flattens; otherwise a joiner joins the values into one string; otherwise
the values pass through. -/
def transform_dict_values (data : MetadataMap)
    (joiners splitters : List (String × String)) : MetadataMap :=
  data.map (fun kv =>
    match lookupA splitters kv.1 with
    | some splitter =>
      (kv.1, kv.2.flatMap (fun value =>
        ((pySplit value splitter).map pyStrip).filter (fun part => part != "")))
    | none =>
      match lookupA joiners kv.1 with
      | some joiner => (kv.1, [pyJoin joiner kv.2])
      | none => kv)

/-- `is_prefix` of metaparser.py: `longer[:len(shorter)] == shorter`. -/
def is_prefix (shorter longer : List String) : Bool :=
  longer.take shorter.length == shorter

/-- `set_attribute` of metaparser.py: with an attribute name, take that
attribute's value if present (silently skipping otherwise); with `None`,
take the element's text; store it as the one-element list for `meta_name`. -/
def set_attribute (metadata : MetadataMap) (element : Element)
    (attribute_name : Option String) (meta_name : String) : MetadataMap :=
  match attribute_name with
  | none => setEntry metadata meta_name [element.text]
  | some a =>
    match getAttr element a with
    | some value => setEntry metadata meta_name [value]
    | none => metadata

/-- Fuel-driven serializer modelling `ET.tostring` on the namespace-cleaned
fragment (`extra_key_value` of metaparser.py).  The exact textual form the
claims need is only that set and add receive the same serialized string. -/
def serializeElem : Nat → Element → String
  | 0, _ => ""
  | fuel + 1, .mk tag attribs text children =>
    let attrStr := attribs.foldl
      (fun acc kv => acc ++ " " ++ kv.1 ++ "=\"" ++ kv.2 ++ "\"") ""
    if text == "" && children.isEmpty then
      "<" ++ tag ++ attrStr ++ "/>"
    else
      "<" ++ tag ++ attrStr ++ ">" ++ text
        ++ children.foldl (fun acc c => acc ++ serializeElem fuel c) ""
        ++ "</" ++ tag ++ ">"

/-- `extra_key_value` of metaparser.py: take the element's first child,
map its tag to a qualified name via `uri_ns`, and serialize the child.
Both call sites guard on the child list being non-empty (Python would
raise IndexError otherwise; the empty case returns a dummy pair). -/
def extra_key_value (element : Element) : String × String :=
  match element.children with
  | child :: _ =>
    (clark_to_qname child.tag uri_ns, serializeElem (elemSize child) child)
  | [] => ("", "")

/-- `set_extra_attribute` of metaparser.py: store the serialized fragment
under its qualified name, tagged with the reserved marker. -/
def set_extra_attribute (metadata : MetadataMap) (element : Element) :
    MetadataMap :=
  let kv := extra_key_value element
  setEntry metadata kv.1 ["__xml__:" ++ kv.2]

/-- `append_attribute` of metaparser.py: like `set_attribute` but appending
to (or creating) the value list; the text form is stripped. -/
def append_attribute (metadata : MetadataMap) (element : Element)
    (attribute_name : Option String) (meta_name : String) : MetadataMap :=
  match attribute_name with
  | none => appendValue metadata meta_name (pyStrip element.text)
  | some a =>
    match getAttr element a with
    | some value => appendValue metadata meta_name value
    | none => metadata

/-- `append_extra_attribute` of metaparser.py: when the key is present,
append the marker-tagged serialized fragment; when it is absent, the
source stores the bare serialized value (without the marker). -/
def append_extra_attribute (metadata : MetadataMap) (element : Element) :
    MetadataMap :=
  let kv := extra_key_value element
  if containsKey metadata kv.1 then
    appendValue metadata kv.1 ("__xml__:" ++ kv.2)
  else
    setEntry metadata kv.1 [kv.2]

/-- One step of the loop over the children of the `ns:metadata` block in
`process_metadata`: dispatch on the child's tag (`ns:set` / `ns:add`,
scalar when the child has no child elements, extra otherwise), raising on
any other tag.  `child.get("type")` is modelled with default `""` (the
documents the source processes carry the attribute). -/
def processMetaChild (m : MetadataMap) (child : Element) :
    Except String MetadataMap :=
  if child.tag == nsTag "set" then
    if child.children.isEmpty then
      .ok (set_attribute m child none (getAttrD child "type" ""))
    else
      .ok (set_extra_attribute m child)
  else if child.tag == nsTag "add" then
    if child.children.isEmpty then
      .ok (append_attribute m child none (getAttrD child "type" ""))
    else
      .ok (append_extra_attribute m child)
  else
    .error ("Unsupported element in metadata section " ++ child.tag)

/-- `process_metadata` of metaparser.py: deep-copy the inherited map (value
semantics here), apply the fixed set of attribute-driven set operations,
then the `.add` append operations, then walk the `ns:metadata` block if
present, raising `ValueError` on an unsupported element there. -/
def process_metadata (metadata : MetadataMap) (meta_element : Element) :
    Except String MetadataMap :=
  let m := set_attribute metadata meta_element (some "creator") "dc:creator"
  let m := set_attribute m meta_element (some "date") "dc:date"
  let m := set_attribute m meta_element (some "description") "dc:description"
  let m := set_attribute m meta_element (some "title") "dc:title"
  let m := set_attribute m meta_element (some "prefix") "mfterms:prefix"
  let m := set_attribute m meta_element (some "meta-manager") "mfterms:meta-manager"
  let m := set_attribute m meta_element (some "data-policy") "mfterms:data-policy"
  let m := append_attribute m meta_element (some "creator.add") "dc:creator"
  let m := append_attribute m meta_element (some "date.add") "dc:date"
  let m := append_attribute m meta_element (some "description.add") "dc:description"
  let m := append_attribute m meta_element (some "title.add") "dc:title"
  let m := append_attribute m meta_element (some "prefix.add") "mfterms:prefix"
  let m := append_attribute m meta_element (some "meta-manager.add") "mfterms:meta-manager"
  match findChild meta_element (nsTag "metadata") with
  | none => .ok m
  | some extra => extra.children.foldlM processMetaChild m

/-- `process_links` of metaparser.py: for each `ns:link` child of the
`ns:links` block, build its metadata from an empty map with the same
overlay logic and append a `LinkInfo`; `type` / `path` are modelled with
default `""` for a missing attribute. -/
def process_links (link_collector : List LinkInfo) (meta_element : Element) :
    Except String (List LinkInfo) :=
  match findChild meta_element (nsTag "links") with
  | none => .ok link_collector
  | some links =>
    links.children.foldlM (fun acc child =>
      if child.tag == nsTag "link" then
        match process_metadata [] child with
        | .error e => .error e
        | .ok md =>
          .ok (acc ++ [{ type := getAttrD child "type" ""
                         path := getAttrD child "path" ""
                         metadata := md }])
      else .ok acc) link_collector

/-- Python truthiness of `element.get('recursive', False)`: the default
`False` for a missing attribute, else the attribute string, which is
truthy exactly when non-empty. -/
def truthyAttr : Option String → Bool
  | none => false
  | some s => s != ""

/-- `collect_files` of metaparser.py.  `realDir` embeds
`list(file_path.relative_to(root_path).parent.parts)` and `file_name`
embeds `file_path.name`; `recursive` is the raw attribute string, tested
by Python truthiness (absent → `False`).  The name condition mirrors the
source: the `filename` attribute compared against the file name (`None`
never equals a string), or — only when `filename` is absent — a glob
match of the `pattern` attribute (default `"*"`).  On a match the
cascaded metadata is appended to the collector and the link block is
processed. -/
def collect_files (realDir : List String) (file_name : String)
    (metadata : MetadataMap) (meta_element : Element) (st : WalkState) :
    Except String WalkState :=
  let recursive := getAttr meta_element "recursive"
  if ¬ (realDir = st.metaPath ∨ truthyAttr recursive = true) then .ok st
  else if (getAttr meta_element "filename" = some file_name)
          ∨ (getAttr meta_element "filename" = none
             ∧ fnmatchb file_name (getAttrD meta_element "pattern" "*") = true) then
    match process_metadata metadata meta_element with
    | .error e => .error e
    | .ok metadata =>
      match process_links st.linkCollector meta_element with
      | .error e => .error e
      | .ok links =>
        .ok { st with collector := st.collector ++ [metadata]
                      linkCollector := links }
  else .ok st

/-- `collect_dir` of metaparser.py, fuel-driven (the fuel strictly bounds
the nesting depth; `parse_metadata` passes `sizeOf` of the tree).  The
`path` attribute is appended to the shared `meta_path` list — as in the
source, the append is never undone, so it persists in the state returned
to the caller, also on the early pruning return.  Children are walked in
document order with the same threaded state. -/
def collect_dir (realDir : List String) (file_name : String) :
    Nat → MetadataMap → Element → WalkState → Except String WalkState
  | 0, _, _, _ => .error "recursion depth exceeded"
  | fuel + 1, metadata, meta_element, st =>
    let st :=
      match getAttr meta_element "path" with
      | some p => { st with metaPath := st.metaPath ++ [p] }
      | none => st
    if ¬ is_prefix st.metaPath realDir then .ok st
    else
      match process_metadata metadata meta_element with
      | .error e => .error e
      | .ok metadata =>
        meta_element.children.foldlM (fun st element =>
          if element.tag == nsTag "dir" then
            collect_dir realDir file_name fuel metadata element st
          else if element.tag == nsTag "files" then
            collect_files realDir file_name metadata element st
          else .ok st) st

/-- `dict.update` step of the `ChainMap` iteration model: overlay the
entries of `m` onto `d`, replacing values of present keys in place and
appending new keys. -/
def dictUpdate (d m : MetadataMap) : MetadataMap :=
  m.foldl (fun d kv => setEntry d kv.1 kv.2) d

/-- The mapping `ChainMap(*reversed(collector))` denotes: per key the
value of the last collected map containing it, keys ordered by first
appearance scanning the collected maps in collection order (Python's
ChainMap iterates by updating a fresh dict with the maps from lowest to
highest precedence). -/
def chainMapMerge (collector : List MetadataMap) : MetadataMap :=
  collector.foldl dictUpdate []

/-- `parse_metadata` of metaparser.py, after `ET.parse` / `xinclude` have
produced the element tree `root`: walk the tree and normalize the merged
result with the fixed joiner and splitter tables. -/
def parse_metadata (root : Element) (realDir : List String)
    (file_name : String) : Except String (List LinkInfo × MetadataMap) :=
  match collect_dir realDir file_name (elemSize root) [] root
      { collector := [], linkCollector := [], metaPath := [] } with
  | .error e => .error e
  | .ok st =>
    .ok (st.linkCollector,
      transform_dict_values (chainMapMerge st.collector)
        [("mfterms:prefix", ""), ("mfterms:meta-manager", "+"),
         ("dc:description", "\n")]
        [("dc:creator", ","), ("dc:contributor", ",")])

/-! Concrete rule trees and elements used as inputs of the evaluation
theorems below.  Tags are in Clark notation exactly as the lxml tree
carries them. -/

/-- Rule tree with two sibling `dir` rules, `path="a"` before `path="b"`;
the `b` subtree holds a catch-all `files` rule carrying a title. -/
def c1Tree : Element :=
  .mk "root" [] "" [
    .mk (nsTag "dir") [("path", "a")] "" [],
    .mk (nsTag "dir") [("path", "b")] "" [
      .mk (nsTag "files") [("pattern", "*"), ("title", "T")] "" []]]

/-- The same tree without the unrelated `path="a"` sibling. -/
def c1TreeOnlyB : Element :=
  .mk "root" [] "" [
    .mk (nsTag "dir") [("path", "b")] "" [
      .mk (nsTag "files") [("pattern", "*"), ("title", "T")] "" []]]

/-- Two sibling catch-all `files` rules at the root, both setting
`dc:title` (to "X", then to "Y"); both match any file in the root
directory. -/
def c2Tree : Element :=
  .mk "root" [] "" [
    .mk (nsTag "files") [("pattern", "*"), ("title", "X")] "" [],
    .mk (nsTag "files") [("pattern", "*"), ("title", "Y")] "" []]

/-- The first of the two sibling rules alone. -/
def c2TreeFirst : Element :=
  .mk "root" [] "" [
    .mk (nsTag "files") [("pattern", "*"), ("title", "X")] "" []]

/-- An ancestor rule element carrying `title.add="X"` (an Add operation on
`dc:title`). -/
def c4AncestorAdd : Element := .mk (nsTag "dir") [("title.add", "X")] "" []

/-- A descendant rule element carrying `title="Y"` (a Set operation on
`dc:title`). -/
def c4DescendantSet : Element := .mk (nsTag "dir") [("title", "Y")] "" []

/-- A descendant rule element carrying `title.add="Y"` (an Add operation
on `dc:title`). -/
def c4DescendantAdd : Element := .mk (nsTag "dir") [("title.add", "Y")] "" []

/-- A structured fragment `<note>v</note>`. -/
def c5Fragment : Element := .mk "note" [] "v" []

/-- An `ns:add` element of the namespaced metadata block whose value is
the structured fragment (it has a child element, so the extra path is
taken). -/
def c5Extra : Element := .mk (nsTag "add") [("type", "n")] "" [c5Fragment]

/-- A namespaced metadata block holding one unsupported element
(`frobnicate` is neither `ns:set` nor `ns:add`). -/
def c6BadMeta : Element :=
  .mk (nsTag "metadata") [] "" [.mk "frobnicate" [] "" []]

/-- A rule tree whose root holds a catch-all `files` rule and a `dir`
rule for directory `a` containing the unsupported metadata element. -/
def c6Tree : Element :=
  .mk "root" [] "" [
    .mk (nsTag "files") [("pattern", "*"), ("title", "T")] "" [],
    .mk (nsTag "dir") [("path", "a")] "" [c6BadMeta]]

/-- A catch-all file selector (`pattern="*"`) with the given raw
`recursive` attribute (absent when `none`). -/
def filesWithRecursive : Option String → Element
  | some s => .mk (nsTag "files") [("pattern", "*"), ("recursive", s)] "" []
  | none => .mk (nsTag "files") [("pattern", "*")] "" []

/-- A file selector with an exact `filename` attribute (and a decoy
`pattern` that matches nothing). -/
def c3FilenameSelector : Element :=
  .mk (nsTag "files") [("filename", "a.txt"), ("pattern", "zzz")] "" []

/-- Keys of a metadata map are pairwise distinct — the invariant every
Python dict satisfies by construction. -/
def noDupKeys : MetadataMap → Bool
  | [] => true
  | kv :: rest => !containsKey rest kv.1 && noDupKeys rest

/-- The per-key value the spec's amended reading predicts for the final
merge: the value sequence of the last collected map that defines the key
(`none` when no collected map defines it). -/
def lastHit (collector : List MetadataMap) (k : String) :
    Option (List String) :=
  collector.foldl (fun acc m => (lookupM m k).or acc) none

/-- List-prefix characterization used by the C7 theorem. -/
theorem take_eq_self_iff_append (s : List String) :
    ∀ l : List String, l.take s.length = s ↔ ∃ t, l = s ++ t := by
  induction s with
  | nil => intro l; simp
  | cons a s' ih =>
    intro l
    cases l with
    | nil => simp
    | cons b l' =>
      simp only [List.length_cons, List.take_succ_cons, List.cons.injEq,
        List.cons_append]
      constructor
      · rintro ⟨rfl, h⟩
        obtain ⟨t, rfl⟩ := (ih l').mp h
        exact ⟨t, rfl, rfl⟩
      · rintro ⟨t, rfl, rfl⟩
        exact ⟨rfl, (ih _).mpr ⟨t, rfl⟩⟩

/-! Helper lemmas about the dictionary primitives. -/

theorem lookupM_cons (kv : String × List String) (rest : MetadataMap)
    (k : String) :
    lookupM (kv :: rest) k = if kv.1 == k then some kv.2 else lookupM rest k := by
  by_cases h : kv.1 == k <;> simp [lookupM, List.find?, h]

theorem lookupM_of_not_containsKey {m : MetadataMap} {k : String}
    (h : containsKey m k = false) : lookupM m k = none := by
  induction m with
  | nil => rfl
  | cons kv rest ih =>
    simp [containsKey] at h
    rw [lookupM_cons]
    simp [h.1, ih (by simpa [containsKey] using h.2)]

theorem lookupM_map_keyUpdate (rest : MetadataMap) {k' k : String}
    (h : k' ≠ k) (g : String × List String → List String) :
    lookupM (rest.map (fun kv => if kv.1 == k' then (kv.1, g kv) else kv)) k
      = lookupM rest k := by
  induction rest with
  | nil => rfl
  | cons kv r ih =>
    obtain ⟨a, b⟩ := kv
    by_cases ha : a = k'
    · subst ha
      have hb : (a == k) = false := by simpa using h
      simp only [List.map_cons, beq_self_eq_true, if_true]
      rw [lookupM_cons, lookupM_cons]
      simp only [hb, Bool.false_eq_true, if_false]
      simpa using ih
    · have hb : (a == k') = false := by simpa using ha
      simp only [List.map_cons, hb, Bool.false_eq_true, if_false]
      rw [lookupM_cons, lookupM_cons]
      by_cases hak : a = k
      · simp [hak]
      · simp [hak]
        simpa using ih

theorem setEntry_cons_ne (k0 : String) (vs0 : List String)
    (rest : MetadataMap) (k : String) (vs : List String) (h : k0 ≠ k) :
    setEntry ((k0, vs0) :: rest) k vs = (k0, vs0) :: setEntry rest k vs := by
  have hb : (k0 == k) = false := by simpa using h
  simp only [setEntry, containsKey, List.any_cons, hb, Bool.false_or]
  by_cases hr : (rest.any fun kv => kv.1 == k) = true <;> simp [hr, hb, h]

theorem appendValue_cons_ne (k0 : String) (vs0 : List String)
    (rest : MetadataMap) (k : String) (v : String) (h : k0 ≠ k) :
    appendValue ((k0, vs0) :: rest) k v = (k0, vs0) :: appendValue rest k v := by
  have hb : (k0 == k) = false := by simpa using h
  simp only [appendValue, containsKey, List.any_cons, hb, Bool.false_or]
  by_cases hr : (rest.any fun kv => kv.1 == k) = true <;> simp [hr, hb, h]

theorem lookupM_setEntry_self (m : MetadataMap) (k : String)
    (vs : List String) : lookupM (setEntry m k vs) k = some vs := by
  induction m with
  | nil => simp [setEntry, containsKey, lookupM, List.find?]
  | cons kv rest ih =>
    obtain ⟨k0, vs0⟩ := kv
    by_cases h : k0 = k
    · subst h
      simp only [setEntry, containsKey, List.any_cons, beq_self_eq_true,
        Bool.true_or, if_true, List.map_cons]
      rw [lookupM_cons]
      simp
    · rw [setEntry_cons_ne k0 vs0 rest k vs h, lookupM_cons]
      have hb : (k0 == k) = false := by simpa using h
      simp [hb, ih]

theorem lookupM_setEntry_ne (m : MetadataMap) (k' k : String)
    (vs : List String) (h : k' ≠ k) :
    lookupM (setEntry m k' vs) k = lookupM m k := by
  induction m with
  | nil =>
    have hb : (k' == k) = false := by simpa using h
    simp [setEntry, containsKey, lookupM, List.find?, hb]
  | cons kv rest ih =>
    obtain ⟨k0, vs0⟩ := kv
    by_cases h0 : k0 = k'
    · subst h0
      have hb : (k0 == k) = false := by simpa using h
      simp only [setEntry, containsKey, List.any_cons, beq_self_eq_true,
        Bool.true_or, if_true, List.map_cons]
      rw [lookupM_cons, lookupM_cons]
      simp only [beq_self_eq_true, if_true, hb, Bool.false_eq_true, if_false]
      exact lookupM_map_keyUpdate rest h (fun _ => vs)
    · rw [setEntry_cons_ne k0 vs0 rest k' vs h0, lookupM_cons, lookupM_cons, ih]

theorem lookupM_appendValue_self (m : MetadataMap) (k : String)
    (v : String) :
    lookupM (appendValue m k v) k = some ((lookupM m k).getD [] ++ [v]) := by
  induction m with
  | nil => simp [appendValue, containsKey, lookupM, List.find?]
  | cons kv rest ih =>
    obtain ⟨k0, vs0⟩ := kv
    by_cases h : k0 = k
    · subst h
      simp only [appendValue, containsKey, List.any_cons, beq_self_eq_true,
        Bool.true_or, if_true, List.map_cons]
      rw [lookupM_cons, lookupM_cons]
      simp
    · rw [appendValue_cons_ne k0 vs0 rest k v h, lookupM_cons, lookupM_cons]
      have hb : (k0 == k) = false := by simpa using h
      simp [hb, ih]

theorem lookupM_dictUpdate (d m : MetadataMap) (k : String)
    (hm : noDupKeys m = true) :
    lookupM (dictUpdate d m) k = (lookupM m k).or (lookupM d k) := by
  induction m generalizing d with
  | nil => simp [dictUpdate, lookupM, List.find?]
  | cons kv rest ih =>
    obtain ⟨k0, vs0⟩ := kv
    simp only [noDupKeys, Bool.and_eq_true, Bool.not_eq_true'] at hm
    have hstep : dictUpdate d ((k0, vs0) :: rest)
        = dictUpdate (setEntry d k0 vs0) rest := by
      simp [dictUpdate]
    rw [hstep, ih (setEntry d k0 vs0) hm.2, lookupM_cons]
    by_cases h : k0 = k
    · subst h
      rw [lookupM_of_not_containsKey hm.1]
      simp [lookupM_setEntry_self]
    · have hb : (k0 == k) = false := by simpa using h
      simp only [hb, Bool.false_eq_true, if_false]
      rw [lookupM_setEntry_ne d k0 k vs0 h]

theorem chain_lookup (collector : List MetadataMap) :
    ∀ (d : MetadataMap) (k : String),
      (∀ m ∈ collector, noDupKeys m = true) →
      lookupM (List.foldl dictUpdate d collector) k
        = collector.foldl (fun acc m => (lookupM m k).or acc) (lookupM d k) := by
  induction collector with
  | nil => intro d k _; rfl
  | cons m rest ih =>
    intro d k h
    simp only [List.foldl_cons]
    rw [ih (dictUpdate d m) k (fun m' hm' => h m' (List.mem_cons_of_mem _ hm'))]
    rw [lookupM_dictUpdate d m k (h m (List.mem_cons_self _ _))]

/-! The claims. -/

/-- C1: the claim says the walk matches every `dir` node against the
target's real directory using that node's own root-to-node rule path,
with no side effect of one sibling subtree on another.  The code violates
this: `collect_dir` appends the `path` attribute to the shared `meta_path`
list and never removes it, so after the walk visits the non-matching
sibling `dir path="a"`, the node `dir path="b"` is matched against the
polluted rule path `["a", "b"]` and is wrongly pruned: the file `b/f.txt`
resolves to no metadata at all, while the same tree without the unrelated
`a` sibling resolves it to the title set by the `b` subtree. -/
theorem C1_meta_path_leak :
    parse_metadata c1Tree ["b"] "f.txt" = .ok ([], [])
    ∧ parse_metadata c1TreeOnlyB ["b"] "f.txt"
        = .ok ([], [("dc:title", ["T"])]) :=
  ⟨rfl, rfl⟩

/-- C2 counterexample: with two sibling catch-all file rules both setting
`dc:title` (first to "X", then to "Y"), both rules match `f.txt` — the
first alone would finalize `["X"]` — yet the finalized map holds only
`["Y"]`: the value "X" produced by the first matching rule's overlay is
discarded, refuting the claim that no matching rule's value is ever
discarded. -/
theorem C2_counterexample :
    parse_metadata c2Tree [] "f.txt" = .ok ([], [("dc:title", ["Y"])])
    ∧ parse_metadata c2TreeFirst [] "f.txt"
        = .ok ([], [("dc:title", ["X"])]) :=
  ⟨rfl, rfl⟩

/-- C2 amended: every matching rule's overlay is appended to the match
list, and the final map is formed per key by the last collected overlay
that defines the key (`ChainMap(*reversed(collector))`); values for a key
from earlier matches are discarded exactly when a later match also
defines that key. -/
theorem C2_per_key_last_match_wins (collector : List MetadataMap)
    (k : String) (h : ∀ m ∈ collector, noDupKeys m = true) :
    lookupM (chainMapMerge collector) k = lastHit collector k := by
  simpa [chainMapMerge, lastHit] using chain_lookup collector [] k h

/-- C2 amended, witnessed at the counterexample's two overlays: the
merge resolves `t` to the last match's value. -/
theorem C2_per_key_last_match_wins_witness :
    lookupM (chainMapMerge [[("t", ["X"])], [("t", ["Y"])]]) "t"
      = lastHit [[("t", ["X"])], [("t", ["Y"])]] "t" :=
  C2_per_key_last_match_wins [[("t", ["X"])], [("t", ["Y"])]] "t" (by decide)

/-- C5: the claim says every structured-fragment value, stored by set and
add alike, present key or not, carries the reserved `__xml__:` marker.
The code violates it in exactly one spot: `append_extra_attribute` with
the key absent stores the bare serialized fragment (first conjunct, no
marker), while the same add with the key present appends the marked value
(second conjunct) and `set_extra_attribute` always stores the marked
value (third conjunct). -/
theorem C5_marker_missing_on_absent_key :
    append_extra_attribute [] c5Extra = [("note", ["<note>v</note>"])]
    ∧ append_extra_attribute [("note", ["w"])] c5Extra
        = [("note", ["w", "__xml__:<note>v</note>"])]
    ∧ set_extra_attribute [] c5Extra = [("note", ["__xml__:<note>v</note>"])] :=
  ⟨rfl, rfl, rfl⟩

/-- C6 counterexample: the claim says a document holding an unsupported
element in the namespaced metadata block fails at load time, before any
file is resolved, and yields no per-file result.  Resolving `f.txt` (in
the root directory) against `c6Tree` — which holds the unsupported
`frobnicate` element inside the `dir path="a"` subtree — succeeds and
produces a full metadata result: the bad element is never reached because
its branch is pruned. -/
theorem C6_counterexample :
    parse_metadata c6Tree [] "f.txt" = .ok ([], [("dc:title", ["T"])]) :=
  rfl

/-- C6 amended: the unsupported element raises the fatal error (the
source's `ValueError`) during per-file resolution, when the walk reaches
the node containing it — here when resolving a file inside directory
`a` — not at document load time; files whose walk prunes that branch
still resolve normally (see the counterexample). -/
theorem C6_amended_error_during_resolution :
    parse_metadata c6Tree ["a"] "x.txt"
      = .error "Unsupported element in metadata section frobnicate" :=
  rfl

/-- C7: `is_prefix rule_path real_dir_path` is true exactly when the rule
path is a component-wise prefix of the real directory path (exact string
equality per component — the characterization is plain list append, no
glob semantics), and on the spec's examples: `["a","b"]` matches
`["a","b","c"]` but neither `["a","c"]` nor `["a"]`. -/
theorem C7_prefix_characterization :
    ∀ (shorter longer : List String),
      ( is_prefix shorter longer = true ↔ ∃ t, longer = shorter ++ t)
      ∧ is_prefix ["a", "b"] ["a", "b", "c"] = true
      ∧ is_prefix ["a", "b"] ["a", "c"] = false
      ∧ is_prefix ["a", "b"] ["a"] = false := by
  intro shorter longer
  refine ⟨?_, by decide, by decide, by decide⟩
  rw [show is_prefix shorter longer
      = (longer.take shorter.length == shorter) from rfl, beq_iff_eq]
  exact take_eq_self_iff_append shorter longer

/-- C8: for key `K` with values `["a","b"]` and joiner `","`, the
normalizer yields `["a,b"]`; applying the split rule with the same
delimiter to that result reproduces `["a","b"]` — join then split on the
same delimiter round-trips these values. -/
theorem C8_join_split_round_trip :
    transform_dict_values [("K", ["a", "b"])] [("K", ",")] [] = [("K", ["a,b"])]
    ∧ transform_dict_values [("K", ["a,b"])] [] [("K", ",")]
        = [("K", ["a", "b"])] :=
  ⟨rfl, rfl⟩

theorem lookupA_cons (kv : String × String) (rest : List (String × String))
    (k : String) :
    lookupA (kv :: rest) k = if kv.1 == k then some kv.2 else lookupA rest k := by
  by_cases h : kv.1 == k <;> simp [lookupA, List.find?, h]

theorem lookupA_filter_of_none {splitters : List (String × String)}
    {k : String} (joiners : List (String × String))
    (hs : lookupA splitters k = none) :
    lookupA (joiners.filter (fun kv => (lookupA splitters kv.1).isNone)) k
      = lookupA joiners k := by
  induction joiners with
  | nil => rfl
  | cons kv rest ih =>
    obtain ⟨a, b⟩ := kv
    rw [lookupA_cons]
    by_cases ha : a = k
    · subst ha
      have hkeep : (lookupA splitters a).isNone = true := by simp [hs]
      simp only [List.filter_cons, hkeep, if_true]
      rw [lookupA_cons]
      simp
    · have hb : (a == k) = false := by simpa using ha
      by_cases hf : (lookupA splitters a).isNone = true
      · simp only [List.filter_cons, hf, if_true]
        rw [lookupA_cons]
        simp [hb, ih]
      · simp only [List.filter_cons, hf, Bool.false_eq_true, if_false]
        simp [hb, ih]

/-- C9: in the value normalizer, a key configured in both the splitters
and the joiners mapping is handled by the split rule and its joiner entry
is ignored: for every input map, the output is unchanged when every
joiner entry whose key is also split-configured is deleted. -/
theorem C9_split_wins_over_join (data : MetadataMap)
    (joiners splitters : List (String × String)) :
    transform_dict_values data joiners splitters
      = transform_dict_values data
          (joiners.filter (fun kv => (lookupA splitters kv.1).isNone))
          splitters := by
  unfold transform_dict_values
  apply List.map_congr_left
  intro kv _
  cases hs : lookupA splitters kv.1 with
  | some sp => simp [hs]
  | none => simp [hs, lookupA_filter_of_none joiners hs]

/-- C10: the `recursive` attribute is interpreted by Python string
truthiness, not boolean parsing.  For a catch-all selector and a real
directory different from the rule path: any non-empty attribute value
`v` — so in particular `"false"` — makes the selector match and collect
(first conjunct), while an absent attribute or the empty string leaves
the selector non-recursive, so nothing is collected (second and third
conjuncts). -/
theorem C10_recursive_is_string_truthy (st : WalkState)
    (realDir : List String) (md : MetadataMap) (v : String) (hv : v ≠ "")
    (hne : realDir ≠ st.metaPath) :
    collect_files realDir "f.txt" md (filesWithRecursive (some v)) st
      = .ok { st with collector := st.collector ++ [md] }
    ∧ collect_files realDir "f.txt" md (filesWithRecursive none) st = .ok st
    ∧ collect_files realDir "f.txt" md (filesWithRecursive (some "")) st
      = .ok st := by
  refine ⟨?_, ?_, ?_⟩
  · have hrec : truthyAttr
        (getAttr (filesWithRecursive (some v)) "recursive") = true := by
      show (v != "") = true
      simpa using hv
    simp only [collect_files]
    rw [if_neg (not_not_intro (Or.inr hrec))]
    rw [if_pos (Or.inr ⟨rfl, rfl⟩)]
    rfl
  · have hcond : ¬ (realDir = st.metaPath
        ∨ truthyAttr (getAttr (filesWithRecursive none) "recursive") = true) := by
      rintro (h | h)
      · exact hne h
      · exact absurd h (by decide)
    simp only [collect_files]
    rw [if_pos hcond]
  · have hcond : ¬ (realDir = st.metaPath
        ∨ truthyAttr (getAttr (filesWithRecursive (some "")) "recursive") = true) := by
      rintro (h | h)
      · exact hne h
      · exact absurd h (by decide)
    simp only [collect_files]
    rw [if_pos hcond]

/-- C10 witnessed at `recursive="false"`, rule path `[]`, real directory
`["a"]`: the selector behaves as recursive. -/
theorem C10_recursive_is_string_truthy_witness :
    collect_files ["a"] "f.txt" [] (filesWithRecursive (some "false"))
        { collector := [], linkCollector := [], metaPath := [] }
      = .ok { collector := [[]], linkCollector := [], metaPath := [] }
    ∧ collect_files ["a"] "f.txt" [] (filesWithRecursive none)
        { collector := [], linkCollector := [], metaPath := [] }
      = .ok { collector := [], linkCollector := [], metaPath := [] }
    ∧ collect_files ["a"] "f.txt" [] (filesWithRecursive (some ""))
        { collector := [], linkCollector := [], metaPath := [] }
      = .ok { collector := [], linkCollector := [], metaPath := [] } :=
  C10_recursive_is_string_truthy
    { collector := [], linkCollector := [], metaPath := [] }
    ["a"] [] "false" (by decide) (by decide)

/-- C4: `Set(key, value)` stores exactly `[value]`, discarding inherited
values (first conjunct); `Add(key, value)` appends to the inherited
sequence (second conjunct); and through the engine's own overlay
functions, an ancestor element with `title.add="X"` followed by a
descendant with `title="Y"` finalizes `dc:title` to exactly `["Y"]`,
while a descendant with `title.add="Y"` instead finalizes it to
`["X", "Y"]` (third and fourth parts, under the claim's premise that the
title is not inherited from above the ancestor). -/
theorem C4_set_overrides_add_accumulates (m : MetadataMap) (k v : String) :
    lookupM (setEntry m k [v]) k = some [v]
    ∧ (∀ vs, lookupM m k = some vs →
        lookupM (appendValue m k v) k = some (vs ++ [v]))
    ∧ (lookupM m "dc:title" = none →
        (Except.map (fun m2 => lookupM m2 "dc:title")
          (Except.bind (process_metadata m c4AncestorAdd)
            (fun m1 => process_metadata m1 c4DescendantSet)))
          = Except.ok (some ["Y"])
        ∧ (Except.map (fun m2 => lookupM m2 "dc:title")
            (Except.bind (process_metadata m c4AncestorAdd)
              (fun m1 => process_metadata m1 c4DescendantAdd)))
            = Except.ok (some ["X", "Y"])) := by
  refine ⟨lookupM_setEntry_self m k [v], fun vs hvs => ?_, fun hnone => ⟨?_, ?_⟩⟩
  · rw [lookupM_appendValue_self, hvs]
    rfl
  · have hred : (Except.map (fun m2 => lookupM m2 "dc:title")
        (Except.bind (process_metadata m c4AncestorAdd)
          (fun m1 => process_metadata m1 c4DescendantSet)))
        = Except.ok (lookupM
            (setEntry (appendValue m "dc:title" "X") "dc:title" ["Y"])
            "dc:title") := rfl
    rw [hred, lookupM_setEntry_self]
  · have hred : (Except.map (fun m2 => lookupM m2 "dc:title")
        (Except.bind (process_metadata m c4AncestorAdd)
          (fun m1 => process_metadata m1 c4DescendantAdd)))
        = Except.ok (lookupM
            (appendValue (appendValue m "dc:title" "X") "dc:title" "Y")
            "dc:title") := rfl
    rw [hred, lookupM_appendValue_self, lookupM_appendValue_self, hnone]
    rfl

/-- C4 witnessed at a metadata map inheriting an unrelated key `k2`. -/
theorem C4_set_overrides_add_accumulates_witness :
    lookupM (setEntry [("k2", ["w"])] "k2" ["v"]) "k2" = some ["v"]
    ∧ lookupM (appendValue [("k2", ["w"])] "k2" "v") "k2"
        = some (["w"] ++ ["v"])
    ∧ (Except.map (fun m2 => lookupM m2 "dc:title")
        (Except.bind (process_metadata [("k2", ["w"])] c4AncestorAdd)
          (fun m1 => process_metadata m1 c4DescendantSet)))
        = Except.ok (some ["Y"])
    ∧ (Except.map (fun m2 => lookupM m2 "dc:title")
        (Except.bind (process_metadata [("k2", ["w"])] c4AncestorAdd)
          (fun m1 => process_metadata m1 c4DescendantAdd)))
        = Except.ok (some ["X", "Y"]) := by
  have h := C4_set_overrides_add_accumulates [("k2", ["w"])] "k2" "v"
  exact ⟨h.1, h.2.1 ["w"] rfl, (h.2.2 rfl).1, (h.2.2 rfl).2⟩

/-- C3: for a file-selector element, collection happens exactly under the
claim's condition.  When the `filename` attribute is present with value
`fn`, the selector collects iff the file name equals `fn` exactly and the
directory-depth condition holds (real directory equal to the rule path,
or the selector recursive) — the right-hand side does not mention the
glob pattern, so the pattern is never consulted in that mode.  When
`filename` is absent, the selector collects iff the glob pattern
(default `"*"`) matches the file name under the same depth condition. -/
theorem C3_selector_semantics (e : Element) (realDir : List String)
    (file_name : String) (md : MetadataMap) (st : WalkState) :
    (∀ fn, getAttr e "filename" = some fn →
      (collect_files realDir file_name md e st ≠ .ok st ↔
        (file_name = fn ∧
          (realDir = st.metaPath
            ∨ truthyAttr (getAttr e "recursive") = true))))
    ∧ (getAttr e "filename" = none →
      (collect_files realDir file_name md e st ≠ .ok st ↔
        (fnmatchb file_name (getAttrD e "pattern" "*") = true ∧
          (realDir = st.metaPath
            ∨ truthyAttr (getAttr e "recursive") = true)))) := by
  have main : (collect_files realDir file_name md e st ≠ .ok st) ↔
      (((getAttr e "filename" = some file_name)
        ∨ (getAttr e "filename" = none
           ∧ fnmatchb file_name (getAttrD e "pattern" "*") = true))
       ∧ (realDir = st.metaPath
          ∨ truthyAttr (getAttr e "recursive") = true)) := by
    simp only [collect_files]
    by_cases hd : (realDir = st.metaPath
        ∨ truthyAttr (getAttr e "recursive") = true)
    · rw [if_neg (not_not_intro hd)]
      by_cases hn : ((getAttr e "filename" = some file_name)
          ∨ (getAttr e "filename" = none
             ∧ fnmatchb file_name (getAttrD e "pattern" "*") = true))
      · rw [if_pos hn]
        refine ⟨fun _ => ⟨hn, hd⟩, fun _ => ?_⟩
        cases hpm : process_metadata md e with
        | error err => simp
        | ok md' =>
          cases hpl : process_links st.linkCollector e with
          | error err => simp
          | ok links =>
            intro hcontra
            have hst := Except.ok.inj hcontra
            have hc := congrArg WalkState.collector hst
            simp at hc
      · rw [if_neg hn]
        simp [hn]
    · rw [if_pos hd]
      simp [hd]
  refine ⟨fun fn hfn => ?_, fun hfn => ?_⟩
  · rw [main]
    constructor
    · rintro ⟨hn, hd⟩
      refine ⟨?_, hd⟩
      rcases hn with h | ⟨h, _⟩
      · rw [hfn] at h
        exact (Option.some.inj h).symm
      · rw [hfn] at h
        cases h
    · rintro ⟨hfe, hd⟩
      exact ⟨Or.inl (by rw [hfn, hfe]), hd⟩
  · rw [main]
    constructor
    · rintro ⟨hn, hd⟩
      refine ⟨?_, hd⟩
      rcases hn with h | ⟨_, h⟩
      · rw [hfn] at h
        cases h
      · exact h
    · rintro ⟨hp, hd⟩
      exact ⟨Or.inr ⟨hfn, hp⟩, hd⟩

/-- C3 witnessed on a selector with `filename="a.txt"` and a decoy
pattern `"zzz"` that matches nothing: the selector still collects
`a.txt` in its own directory, so the pattern was not consulted. -/
theorem C3_selector_semantics_witness :
    collect_files [] "a.txt" [] c3FilenameSelector
        { collector := [], linkCollector := [], metaPath := [] }
      ≠ .ok { collector := [], linkCollector := [], metaPath := [] } :=
  ((C3_selector_semantics c3FilenameSelector [] "a.txt" []
      { collector := [], linkCollector := [], metaPath := [] }).1
    "a.txt" rfl).mpr ⟨rfl, Or.inl rfl⟩

end Metafiles
